import Mathlib

/-!
Verification development for the rnix-parser library: a lossless,
error-tolerant parser for the Nix expression language.

The public surface (`src/src/lib.rs`) defines the language tag conversions
(`NixLanguage::kind_from_raw` / `kind_to_raw`), the `Parse` result type with
its `syntax`, `tree`, `errors` and `ok` accessors, `Root::parse`, and the
`match_ast!` dispatch helper.  Those are embedded here directly from the
source.  The tokenizer, parser, kind enumeration and AST modules are not part
of the available source; where a fact depends on them they are modelled from
the specification, and each such definition says so in its doc comment.

Machine integers are modelled as `Nat` (the raw kind tag is a `u16`; no
claim exercises wrap-around).  Fallible operations (`unwrap`, the fatal
bounds assertion) are modelled with `Option`, `none` standing for the panic.
-/

/-- Modelled from the spec: the kind enumeration (`kinds` module, not in the
available source) is a closed tag set covering terminals and nonterminals
whose discriminants are contiguous starting at zero, with `__LAST` as the
declared upper bound.  Only the kinds exercised by the modelled grammar
subset are listed; the contiguity and bound structure is what the claims
depend on. -/
inductive SyntaxKind where
  | TOKEN_WHITESPACE
  | TOKEN_COMMENT
  | TOKEN_ERROR
  | TOKEN_IDENT
  | TOKEN_INTEGER
  | TOKEN_OR
  | TOKEN_ADD
  | TOKEN_SUB
  | TOKEN_MUL
  | TOKEN_DIV
  | TOKEN_UPDATE
  | TOKEN_DOT
  | TOKEN_COLON
  | NODE_ROOT
  | NODE_ERROR
  | NODE_IDENT
  | NODE_LITERAL
  | NODE_BIN_OP
  | NODE_SELECT
  | NODE_OR_DEFAULT
  | NODE_LAMBDA
  | __LAST
deriving Repr, DecidableEq, Fintype

/-- Discriminant of a kind: contiguous, starting at zero (`kind as u16`). -/
def SyntaxKind.toRaw : SyntaxKind → Nat
  | .TOKEN_WHITESPACE => 0
  | .TOKEN_COMMENT => 1
  | .TOKEN_ERROR => 2
  | .TOKEN_IDENT => 3
  | .TOKEN_INTEGER => 4
  | .TOKEN_OR => 5
  | .TOKEN_ADD => 6
  | .TOKEN_SUB => 7
  | .TOKEN_MUL => 8
  | .TOKEN_DIV => 9
  | .TOKEN_UPDATE => 10
  | .TOKEN_DOT => 11
  | .TOKEN_COLON => 12
  | .NODE_ROOT => 13
  | .NODE_ERROR => 14
  | .NODE_IDENT => 15
  | .NODE_LITERAL => 16
  | .NODE_BIN_OP => 17
  | .NODE_SELECT => 18
  | .NODE_OR_DEFAULT => 19
  | .NODE_LAMBDA => 20
  | .__LAST => 21

/-- Inverse discriminant table: the variant whose discriminant is `n`, when
one exists.  This models what an in-range `transmute::<u16, SyntaxKind>`
produces. -/
def SyntaxKind.ofRaw : Nat → Option SyntaxKind
  | 0 => some .TOKEN_WHITESPACE
  | 1 => some .TOKEN_COMMENT
  | 2 => some .TOKEN_ERROR
  | 3 => some .TOKEN_IDENT
  | 4 => some .TOKEN_INTEGER
  | 5 => some .TOKEN_OR
  | 6 => some .TOKEN_ADD
  | 7 => some .TOKEN_SUB
  | 8 => some .TOKEN_MUL
  | 9 => some .TOKEN_DIV
  | 10 => some .TOKEN_UPDATE
  | 11 => some .TOKEN_DOT
  | 12 => some .TOKEN_COLON
  | 13 => some .NODE_ROOT
  | 14 => some .NODE_ERROR
  | 15 => some .NODE_IDENT
  | 16 => some .NODE_LITERAL
  | 17 => some .NODE_BIN_OP
  | 18 => some .NODE_SELECT
  | 19 => some .NODE_OR_DEFAULT
  | 20 => some .NODE_LAMBDA
  | 21 => some .__LAST
  | _ => none

namespace NixLanguage

/-- Embedding of `NixLanguage::kind_to_raw` (src/src/lib.rs:30):
`rowan::SyntaxKind(kind as u16)`. -/
def kind_to_raw (kind : SyntaxKind) : Nat :=
  kind.toRaw

/-- Embedding of `NixLanguage::kind_from_raw` (src/src/lib.rs:25): the
discriminant is bounds-checked against `SyntaxKind::__LAST`
(`assert!(discriminant <= (SyntaxKind::__LAST as u16))`) and then
reinterpreted as a `SyntaxKind`.  The failing assertion (a fatal abort, not
a recoverable error) is modelled as `none`. -/
def kind_from_raw (raw : Nat) : Option SyntaxKind :=
  if raw ≤ SyntaxKind.toRaw .__LAST then SyntaxKind.ofRaw raw else none

end NixLanguage

/-- Modelled from the spec: a token (`tokenizer` module, not in the available
source) is a tag from the kind enumeration plus the exact span of source
text it occupies.  The text is carried directly as the character list of the
span. -/
structure Token where
  kind : SyntaxKind
  text : List Char
deriving Repr

/-- Modelled from the spec: a parse error (`parser` module, not in the
available source) is a human-readable message with a source byte range,
accumulated during parsing and never aborting the run.  The byte range is
not tracked in this model because no claim inspects it. -/
structure ParseError where
  message : String
deriving Repr, DecidableEq

/-- Modelled from the spec: a green (immutable, structurally shared) tree
node is identified by a kind and owns an ordered sequence of children, each
either a nested node or a token.  Position information is not stored. -/
inductive Green where
  | token : Token → Green
  | node : SyntaxKind → List Green → Green
deriving Repr

/-- Kind of a green element (for leaves, the token's kind). -/
def Green.kind : Green → SyntaxKind
  | .token t => t.kind
  | .node k _ => k

mutual

/-- Tokens at the leaves of a green element, in left-to-right order. -/
def Green.toks : Green → List Token
  | .token t => [t]
  | .node _ cs => toksList cs

/-- Tokens at the leaves of a list of green elements, in order. -/
def toksList : List Green → List Token
  | [] => []
  | g :: gs => Green.toks g ++ toksList gs

end

/-- Concatenated text of a token list. -/
def tokensText (ts : List Token) : List Char :=
  (ts.map Token.text).flatten

/-- Concatenated text of every token at the leaves of a green element, in
left-to-right traversal order. -/
def Green.text (g : Green) : List Char :=
  tokensText g.toks

/-- Identifier head character: a letter or an underscore. -/
def isIdentStart (c : Char) : Bool :=
  c.isAlpha || c = '_'

/-- Identifier continuation character: letters, digits, underscores and
internal dashes (the spec calls out identifiers allowing internal dashes). -/
def isIdentCont (c : Char) : Bool :=
  c.isAlphanum || c = '_' || c = '-'

/-- Longest prefix of the list whose characters satisfy `p`, together with
the remainder. -/
def takeRun (p : Char → Bool) : List Char → List Char × List Char
  | [] => ([], [])
  | c :: cs =>
    if p c then
      let r := takeRun p cs
      (c :: r.1, r.2)
    else ([], c :: cs)

/-- Modelled from the spec: one step of the tokenizer (`tokenizer` module,
not in the available source) on a non-empty input `c :: cs`.  Longest-match
scanning of the modelled lexical subset: whitespace runs, `#` line comments,
identifiers with internal dashes distinguished from the `or` keyword by
exact-match lookup, integer literals, the operators `+ - * / // . :` with
the update operator `//` resolved by longest match against division `/`, and
every unrecognized character as a one-token error span.  Each step consumes
at least one character and the token text is exactly the consumed span. -/
def nextToken (c : Char) (cs : List Char) : Token × List Char :=
  if c.isWhitespace then
    let r := takeRun Char.isWhitespace cs
    (⟨.TOKEN_WHITESPACE, c :: r.1⟩, r.2)
  else if c = '#' then
    let r := takeRun (fun d => !(d = '\n')) cs
    (⟨.TOKEN_COMMENT, c :: r.1⟩, r.2)
  else if isIdentStart c then
    let r := takeRun isIdentCont cs
    if c :: r.1 = ['o', 'r'] then (⟨.TOKEN_OR, c :: r.1⟩, r.2)
    else (⟨.TOKEN_IDENT, c :: r.1⟩, r.2)
  else if c.isDigit then
    let r := takeRun Char.isDigit cs
    (⟨.TOKEN_INTEGER, c :: r.1⟩, r.2)
  else if c = '/' then
    match cs with
    | d :: rest =>
      if d = '/' then (⟨.TOKEN_UPDATE, ['/', '/']⟩, rest)
      else (⟨.TOKEN_DIV, [c]⟩, cs)
    | [] => (⟨.TOKEN_DIV, [c]⟩, cs)
  else if c = '+' then (⟨.TOKEN_ADD, [c]⟩, cs)
  else if c = '-' then (⟨.TOKEN_SUB, [c]⟩, cs)
  else if c = '*' then (⟨.TOKEN_MUL, [c]⟩, cs)
  else if c = '.' then (⟨.TOKEN_DOT, [c]⟩, cs)
  else if c = ':' then (⟨.TOKEN_COLON, [c]⟩, cs)
  else (⟨.TOKEN_ERROR, [c]⟩, cs)

/-- Fuelled scanning loop of the tokenizer.  The fuel argument is an
artifact of the embedding: since every `nextToken` step consumes at least
one character, the initial fuel `length + 1` never runs out; the fuel-out
branch nevertheless preserves the remaining input as one error span so that
losslessness holds unconditionally. -/
def tokenizeGo : Nat → List Char → List Token
  | 0, [] => []
  | 0, c :: cs => [⟨.TOKEN_ERROR, c :: cs⟩]
  | _ + 1, [] => []
  | fuel + 1, c :: cs =>
    let r := nextToken c cs
    r.1 :: tokenizeGo fuel r.2

/-- Modelled from the spec: the tokenizer turns source text into a finite
token sequence, never failing outright, with every character of the input
covered by exactly one token in order. -/
def tokenize (cs : List Char) : List Token :=
  tokenizeGo (cs.length + 1) cs

/-- Trivia tokens: whitespace and comments, retained for round-trip
fidelity but ignored when deciding what to parse next. -/
def isTrivia (k : SyntaxKind) : Bool :=
  k = .TOKEN_WHITESPACE || k = .TOKEN_COMMENT

/-- Leading trivia tokens of a token stream, and the remainder. -/
def takeTrivia : List Token → List Token × List Token
  | [] => ([], [])
  | t :: ts =>
    if isTrivia t.kind then
      let r := takeTrivia ts
      (t :: r.1, r.2)
    else ([], t :: ts)

/-- Tokens injected as green leaves. -/
def tokGreens (ts : List Token) : List Green :=
  ts.map Green.token

/-- Modelled from the spec: the parser's atom rule (`parser` module, not in
the available source) for the modelled grammar subset: an integer literal or
an identifier, with the leading trivia attached.  On an unexpected token the
parser records an error and wraps the offending token as an error-kind node
(recovery); at end of input it records an error and closes an empty
error-kind node. -/
def parseAtom (ts : List Token) : Green × List Token × List ParseError :=
  let r := takeTrivia ts
  match r.2 with
  | [] => (Green.node .NODE_ERROR (tokGreens r.1), [], [⟨"unexpected end of input"⟩])
  | t :: rest =>
    if t.kind = .TOKEN_INTEGER then
      (Green.node .NODE_LITERAL (tokGreens r.1 ++ [Green.token t]), rest, [])
    else if t.kind = .TOKEN_IDENT then
      (Green.node .NODE_IDENT (tokGreens r.1 ++ [Green.token t]), rest, [])
    else
      (Green.node .NODE_ERROR (tokGreens r.1 ++ [Green.token t]), rest,
        [⟨"unexpected token"⟩])

/-- Modelled from the spec: the selection-chain loop.  Attribute selection
(`a.b.c`) binds tightest and nests left-associatively, one `NODE_SELECT` per
`.` step.  A dot not followed by an attribute name records an error and
closes the selection node with the malformed tail wrapped as an error
node. -/
def parseSelectLoop : Nat → Green → List Token → Green × List Token × List ParseError
  | 0, lhs, ts => (lhs, ts, [])
  | fuel + 1, lhs, ts =>
    let r := takeTrivia ts
    match r.2 with
    | dot :: rest1 =>
      if dot.kind = .TOKEN_DOT then
        let r2 := takeTrivia rest1
        match r2.2 with
        | a :: rest3 =>
          if a.kind = .TOKEN_IDENT then
            parseSelectLoop fuel
              (Green.node .NODE_SELECT
                ([lhs] ++ tokGreens r.1 ++ [Green.token dot] ++ tokGreens r2.1
                  ++ [Green.token a]))
              rest3
          else
            (Green.node .NODE_SELECT
              ([lhs] ++ tokGreens r.1 ++ [Green.token dot] ++ tokGreens r2.1
                ++ [Green.node .NODE_ERROR [Green.token a]]),
              rest3, [⟨"expected attribute name"⟩])
        | [] =>
          (Green.node .NODE_SELECT
            ([lhs] ++ tokGreens r.1 ++ [Green.token dot] ++ tokGreens r2.1),
            [], [⟨"expected attribute name"⟩])
      else (lhs, ts, [])
    | [] => (lhs, ts, [])

/-- Modelled from the spec: attribute selection with optional default.  The
whole selection chain is parsed first; a following `or` keyword then wraps
the entire chain, the `or` token and the default expression in one
`NODE_OR_DEFAULT` node, so the default attaches to the full chain and never
to its last segment. -/
def parseSelect (fuel : Nat) (ts : List Token) : Green × List Token × List ParseError :=
  let a := parseAtom ts
  let c := parseSelectLoop fuel a.1 a.2.1
  let r := takeTrivia c.2.1
  match r.2 with
  | t :: rest =>
    if t.kind = .TOKEN_OR then
      let d := parseAtom rest
      (Green.node .NODE_OR_DEFAULT ([c.1] ++ tokGreens r.1 ++ [Green.token t] ++ [d.1]),
        d.2.1, a.2.2 ++ c.2.2 ++ d.2.2)
    else (c.1, c.2.1, a.2.2 ++ c.2.2)
  | [] => (c.1, c.2.1, a.2.2 ++ c.2.2)

/-- Modelled from the spec: the left-associative multiplicative level of the
precedence climber (`*` and `/`).  Each step folds the operand parsed at the
tighter (selection) level into a `NODE_BIN_OP` with the previous left-hand
side. -/
def parseMulLoop : Nat → Green → List Token → Green × List Token × List ParseError
  | 0, lhs, ts => (lhs, ts, [])
  | fuel + 1, lhs, ts =>
    let r := takeTrivia ts
    match r.2 with
    | op :: rest1 =>
      if op.kind = .TOKEN_MUL ∨ op.kind = .TOKEN_DIV then
        let rhs := parseSelect fuel rest1
        let l := parseMulLoop fuel
          (Green.node .NODE_BIN_OP
            ([lhs] ++ tokGreens r.1 ++ [Green.token op] ++ [rhs.1]))
          rhs.2.1
        (l.1, l.2.1, rhs.2.2 ++ l.2.2)
      else (lhs, ts, [])
    | [] => (lhs, ts, [])

/-- Multiplicative level entry point. -/
def parseMul (fuel : Nat) (ts : List Token) : Green × List Token × List ParseError :=
  let a := parseSelect fuel ts
  let l := parseMulLoop fuel a.1 a.2.1
  (l.1, l.2.1, a.2.2 ++ l.2.2)

/-- Modelled from the spec: the left-associative additive level of the
precedence climber (`+` and `-`), looser than the multiplicative level. -/
def parseAddLoop : Nat → Green → List Token → Green × List Token × List ParseError
  | 0, lhs, ts => (lhs, ts, [])
  | fuel + 1, lhs, ts =>
    let r := takeTrivia ts
    match r.2 with
    | op :: rest1 =>
      if op.kind = .TOKEN_ADD ∨ op.kind = .TOKEN_SUB then
        let rhs := parseMul fuel rest1
        let l := parseAddLoop fuel
          (Green.node .NODE_BIN_OP
            ([lhs] ++ tokGreens r.1 ++ [Green.token op] ++ [rhs.1]))
          rhs.2.1
        (l.1, l.2.1, rhs.2.2 ++ l.2.2)
      else (lhs, ts, [])
    | [] => (lhs, ts, [])

/-- Additive level entry point. -/
def parseAdd (fuel : Nat) (ts : List Token) : Green × List Token × List ParseError :=
  let a := parseMul fuel ts
  let l := parseAddLoop fuel a.1 a.2.1
  (l.1, l.2.1, a.2.2 ++ l.2.2)

/-- Modelled from the spec: the right-associative set-update level (`//`),
looser than the additive level.  Right associativity comes from recursing at
the same level for the right operand. -/
def parseUpdate : Nat → List Token → Green × List Token × List ParseError
  | 0, ts => (Green.node .NODE_ERROR [], ts, [⟨"parser fuel exhausted"⟩])
  | fuel + 1, ts =>
    let a := parseAdd fuel ts
    let r := takeTrivia a.2.1
    match r.2 with
    | op :: rest1 =>
      if op.kind = .TOKEN_UPDATE then
        let rhs := parseUpdate fuel rest1
        (Green.node .NODE_BIN_OP
          ([a.1] ++ tokGreens r.1 ++ [Green.token op] ++ [rhs.1]),
          rhs.2.1, a.2.2 ++ rhs.2.2)
      else (a.1, a.2.1, a.2.2)
    | [] => (a.1, a.2.1, a.2.2)

/-- Modelled from the spec: the expression entry point.  A lambda whose
parameter is a bare name (`x: body`) is recognized by two-token lookahead
(identifier followed by a colon) and nests to the right through its body;
otherwise parsing proceeds with the operator levels. -/
def parseExpr : Nat → List Token → Green × List Token × List ParseError
  | 0, ts => (Green.node .NODE_ERROR [], ts, [⟨"parser fuel exhausted"⟩])
  | fuel + 1, ts =>
    let r := takeTrivia ts
    match r.2 with
    | id :: rest1 =>
      if id.kind = .TOKEN_IDENT then
        let r2 := takeTrivia rest1
        match r2.2 with
        | colon :: rest3 =>
          if colon.kind = .TOKEN_COLON then
            let body := parseExpr fuel rest3
            (Green.node .NODE_LAMBDA
              (tokGreens r.1 ++ [Green.token id] ++ tokGreens r2.1
                ++ [Green.token colon] ++ [body.1]),
              body.2.1, body.2.2)
          else parseUpdate fuel ts
        | [] => parseUpdate fuel ts
      else parseUpdate fuel ts
    | [] => parseUpdate fuel ts

/-- Modelled from the spec: `parser::parse` (not in the available source):
consume the token stream, build one immutable tree rooted at `NODE_ROOT`
and return it with the accumulated, ordered error list.  Tokens left over
after the root expression stay in the tree (wrapped under the root) and, if
any of them is not trivia, one further error is recorded.  The fuel
`2 * length + 2` is an artifact of the embedding; the fuel-out branches keep
the result total and lossless regardless. -/
def parseRoot (ts : List Token) : Green × List ParseError :=
  let e := parseExpr (2 * ts.length + 2) ts
  let leftoverErrors : List ParseError :=
    if (takeTrivia e.2.1).2.isEmpty then [] else [⟨"unexpected token after the root expression"⟩]
  (Green.node .NODE_ROOT ([e.1] ++ tokGreens e.2.1), e.2.2 ++ leftoverErrors)

/-- Embedding of `Parse<T>` (src/src/lib.rs:52): the result of a parse,
bundling the green tree and the accumulated error list.  The `PhantomData`
marker of the intended root AST type is represented by specializing the
accessors below to `Root`, the one instantiation the source uses. -/
structure Parse where
  green : Green
  errors : List ParseError
deriving Repr

/-- Embedding of `Parse::syntax` (src/src/lib.rs:59): the navigable root
node over the green tree.  The model identifies a navigable node with the
green element it is a view of, since the view adds only derived position
and parent data. -/
def Parse.syntaxNode (p : Parse) : Green :=
  p.green

/-- Modelled from the spec: the `Root` AST wrapper (`ast` module, not in the
available source) holds a navigable-view node and is valid only when that
node's kind satisfies the wrapper's predicate: being the root-kind node. -/
structure Root where
  node : Green
deriving Repr

/-- Modelled from the spec: the cast operation of the `Root` wrapper yields
the wrapper exactly when the node's kind is the root kind, and an explicit
absence otherwise — never an exception. -/
def Root.cast (g : Green) : Option Root :=
  if g.kind = .NODE_ROOT then some ⟨g⟩ else none

/-- Embedding of `Parse::tree` (src/src/lib.rs:65):
`T::cast(self.syntax()).unwrap()` at `T = Root`.  The `unwrap` of a failed
cast (a panic) is modelled as `none`. -/
def Parse.tree (p : Parse) : Option Root :=
  Root.cast p.syntaxNode

/-- Embedding of `Parse::ok` (src/src/lib.rs:75): the first recorded error
if there is one, and otherwise the typed tree. -/
def Parse.ok (p : Parse) : Except ParseError (Option Root) :=
  match p.errors.head? with
  | some err => .error err
  | none => .ok p.tree

/-- Embedding of `Root::parse` (src/src/lib.rs:44): tokenize the input,
run the parser, and bundle the green tree with the error list. -/
def Root.parse (s : String) : Parse :=
  let r := parseRoot (tokenize s.data)
  ⟨r.1, r.2⟩

/-- Embedding of one arm of the `match_ast!` helper (src/src/lib.rs:97): an
AST wrapper's cast tried against the node, and the handler run on the
wrapper when the cast succeeds.  As in the spec's data model, a wrapper is
a typed view holding the navigable node, so the wrapper produced by a
successful cast is represented by the node it holds. -/
structure MatchArm (R : Type) where
  cast : Green → Option Green
  handler : Green → R

/-- Embedding of the `match_ast!` dispatch helper (src/src/lib.rs:97): the
macro expands to a chain of `if let Some(it) = ast::A::cast(node.clone())`
tests, one per listed arm in order, falling through to the catch-all
expression when every cast fails. -/
def matchAst {R : Type} (node : Green) (arms : List (MatchArm R)) (catchAll : R) : R :=
  match arms with
  | [] => catchAll
  | arm :: rest =>
    match arm.cast node with
    | some it => arm.handler it
    | none => matchAst node rest catchAll

/-- Shape of a green tree with trivia erased: the structural skeleton used
to state which association the parser chose, independent of interleaved
whitespace. -/
inductive Shape where
  | tok : SyntaxKind → List Char → Shape
  | node : SyntaxKind → List Shape → Shape
deriving Repr

mutual

/-- Trivia-erased shape of a green element (`none` for a trivia token). -/
def Green.shape : Green → Option Shape
  | .token t => if isTrivia t.kind then none else some (.tok t.kind t.text)
  | .node k cs => some (.node k (shapeList cs))

/-- Trivia-erased shapes of a list of green elements, in order. -/
def shapeList : List Green → List Shape
  | [] => []
  | g :: gs =>
    match Green.shape g with
    | some s => s :: shapeList gs
    | none => shapeList gs

end

section RoundTripLemmas

@[simp]
theorem toks_token_def (t : Token) : (Green.token t).toks = [t] := rfl

@[simp]
theorem toks_node_def (k : SyntaxKind) (cs : List Green) :
    (Green.node k cs).toks = toksList cs := rfl

@[simp]
theorem toksList_nil : toksList [] = [] := rfl

@[simp]
theorem toksList_cons (g : Green) (gs : List Green) :
    toksList (g :: gs) = g.toks ++ toksList gs := rfl

@[simp]
theorem toksList_append (a b : List Green) :
    toksList (a ++ b) = toksList a ++ toksList b := by
  induction a with
  | nil => simp
  | cons g gs ih => simp [ih]

@[simp]
theorem toksList_tokGreens (ts : List Token) : toksList (tokGreens ts) = ts := by
  induction ts with
  | nil => rfl
  | cons t ts ih => simpa [tokGreens] using ih

@[simp]
theorem tokensText_nil : tokensText [] = [] := rfl

@[simp]
theorem tokensText_cons (t : Token) (ts : List Token) :
    tokensText (t :: ts) = t.text ++ tokensText ts := by
  simp [tokensText]

@[simp]
theorem tokensText_append (a b : List Token) :
    tokensText (a ++ b) = tokensText a ++ tokensText b := by
  simp [tokensText]

theorem takeRun_append (p : Char → Bool) (l : List Char) :
    (takeRun p l).1 ++ (takeRun p l).2 = l := by
  induction l with
  | nil => rfl
  | cons c cs ih =>
    by_cases h : p c <;> simp [takeRun, h, ih]

theorem nextToken_text (c : Char) (cs : List Char) :
    (nextToken c cs).1.text ++ (nextToken c cs).2 = c :: cs := by
  by_cases h1 : c.isWhitespace
  · simp [nextToken, h1, takeRun_append]
  · by_cases h2 : c = '#'
    · subst h2; simp [nextToken, h1, takeRun_append]
    · by_cases h3 : isIdentStart c
      · have h := takeRun_append isIdentCont cs
        by_cases ho : c :: (takeRun isIdentCont cs).1 = ['o', 'r']
        · simp only [List.cons.injEq] at ho
          obtain ⟨hc, hr⟩ := ho
          subst hc
          rw [hr] at h
          simpa [nextToken, h1, h3, hr] using h
        · simp [nextToken, h1, h2, h3, ho, h]
      · by_cases h4 : c.isDigit
        · simp [nextToken, h1, h2, h3, h4, takeRun_append]
        · by_cases h5 : c = '/'
          · subst h5
            cases cs with
            | nil => simp [nextToken, h1, h3, h4]
            | cons d ds =>
              by_cases h6 : d = '/'
              · subst h6; simp [nextToken, h1, h3, h4]
              · simp [nextToken, h1, h3, h4, h6]
          · by_cases h7 : c = '+'
            · subst h7; simp [nextToken, h1, h3, h4]
            · by_cases h8 : c = '-'
              · subst h8; simp [nextToken, h1, h3, h4]
              · by_cases h9 : c = '*'
                · subst h9; simp [nextToken, h1, h3, h4]
                · by_cases h10 : c = '.'
                  · subst h10; simp [nextToken, h1, h3, h4]
                  · by_cases h11 : c = ':'
                    · subst h11; simp [nextToken, h1, h3, h4]
                    · simp [nextToken, h1, h2, h3, h4, h5, h7, h8, h9, h10, h11]

theorem tokenizeGo_text (fuel : Nat) (l : List Char) :
    tokensText (tokenizeGo fuel l) = l := by
  induction fuel generalizing l with
  | zero => cases l <;> simp [tokenizeGo]
  | succ fuel ih =>
    cases l with
    | nil => simp [tokenizeGo]
    | cons c cs =>
      have h := nextToken_text c cs
      simp only [tokenizeGo, tokensText_cons, ih]
      exact h

theorem tokenize_text (l : List Char) : tokensText (tokenize l) = l :=
  tokenizeGo_text _ l

end RoundTripLemmas

section ParserLemmas

theorem takeTrivia_append (ts : List Token) :
    (takeTrivia ts).1 ++ (takeTrivia ts).2 = ts := by
  induction ts with
  | nil => rfl
  | cons t ts ih =>
    by_cases h : isTrivia t.kind <;> simp [takeTrivia, h, ih]

theorem parseAtom_toks (ts : List Token) :
    (parseAtom ts).1.toks ++ (parseAtom ts).2.1 = ts := by
  have h := takeTrivia_append ts
  rcases hr : takeTrivia ts with ⟨triv, rest⟩
  rw [hr] at h
  cases rest with
  | nil => simp_all [parseAtom, hr]
  | cons t rest =>
    by_cases h1 : t.kind = .TOKEN_INTEGER
    · simp_all [parseAtom, hr, h1]
    · by_cases h2 : t.kind = .TOKEN_IDENT <;> simp_all [parseAtom, hr, h2]

theorem parseSelectLoop_toks (fuel : Nat) (lhs : Green) (ts : List Token) :
    (parseSelectLoop fuel lhs ts).1.toks ++ (parseSelectLoop fuel lhs ts).2.1
      = lhs.toks ++ ts := by
  induction fuel generalizing lhs ts with
  | zero => simp [parseSelectLoop]
  | succ fuel ih =>
    have h := takeTrivia_append ts
    rcases hr : takeTrivia ts with ⟨triv, rest⟩
    rw [hr] at h
    cases rest with
    | nil => simp_all [parseSelectLoop, hr]
    | cons dot rest1 =>
      by_cases h1 : dot.kind = .TOKEN_DOT
      · have h2 := takeTrivia_append rest1
        rcases hr2 : takeTrivia rest1 with ⟨triv2, rest2⟩
        rw [hr2] at h2
        cases rest2 with
        | nil => simp_all [parseSelectLoop, hr, h1, hr2]
        | cons a rest3 =>
          by_cases h3 : a.kind = .TOKEN_IDENT
          · simp_all [parseSelectLoop, hr, h1, hr2, h3, ih]
          · simp_all [parseSelectLoop, hr, h1, hr2, h3]
      · simp_all [parseSelectLoop, hr, h1]

end ParserLemmas

theorem parseSelect_toks (fuel : Nat) (ts : List Token) :
    (parseSelect fuel ts).1.toks ++ (parseSelect fuel ts).2.1 = ts := by
  have ha := parseAtom_toks ts
  have hl := parseSelectLoop_toks fuel (parseAtom ts).1 (parseAtom ts).2.1
  set c := parseSelectLoop fuel (parseAtom ts).1 (parseAtom ts).2.1 with hc
  have h := takeTrivia_append c.2.1
  rcases hr : takeTrivia c.2.1 with ⟨triv, rest⟩
  rw [hr] at h
  cases rest with
  | nil =>
    simp only [parseSelect, ← hc, hr]
    simp_all
  | cons t rest =>
    by_cases h1 : t.kind = .TOKEN_OR
    · have hd := parseAtom_toks rest
      simp only [parseSelect, ← hc, hr]
      simp_all [List.append_assoc]
    · simp only [parseSelect, ← hc, hr]
      simp_all

theorem parseMulLoop_toks (fuel : Nat) (lhs : Green) (ts : List Token) :
    (parseMulLoop fuel lhs ts).1.toks ++ (parseMulLoop fuel lhs ts).2.1
      = lhs.toks ++ ts := by
  induction fuel generalizing lhs ts with
  | zero => simp [parseMulLoop]
  | succ fuel ih =>
    have h := takeTrivia_append ts
    rcases hr : takeTrivia ts with ⟨triv, rest⟩
    rw [hr] at h
    cases rest with
    | nil => simp_all [parseMulLoop, hr]
    | cons op rest1 =>
      by_cases h1 : op.kind = .TOKEN_MUL ∨ op.kind = .TOKEN_DIV
      · have hrhs := parseSelect_toks fuel rest1
        have hl := ih (Green.node .NODE_BIN_OP
            ([lhs] ++ tokGreens triv ++ [Green.token op] ++ [(parseSelect fuel rest1).1]))
          (parseSelect fuel rest1).2.1
        simp only [parseMulLoop, hr]
        simp_all [List.append_assoc]
      · simp_all [parseMulLoop, hr, h1]

theorem parseMul_toks (fuel : Nat) (ts : List Token) :
    (parseMul fuel ts).1.toks ++ (parseMul fuel ts).2.1 = ts := by
  have ha := parseSelect_toks fuel ts
  have hl := parseMulLoop_toks fuel (parseSelect fuel ts).1 (parseSelect fuel ts).2.1
  simp only [parseMul]
  simp_all

theorem parseAddLoop_toks (fuel : Nat) (lhs : Green) (ts : List Token) :
    (parseAddLoop fuel lhs ts).1.toks ++ (parseAddLoop fuel lhs ts).2.1
      = lhs.toks ++ ts := by
  induction fuel generalizing lhs ts with
  | zero => simp [parseAddLoop]
  | succ fuel ih =>
    have h := takeTrivia_append ts
    rcases hr : takeTrivia ts with ⟨triv, rest⟩
    rw [hr] at h
    cases rest with
    | nil => simp_all [parseAddLoop, hr]
    | cons op rest1 =>
      by_cases h1 : op.kind = .TOKEN_ADD ∨ op.kind = .TOKEN_SUB
      · have hrhs := parseMul_toks fuel rest1
        have hl := ih (Green.node .NODE_BIN_OP
            ([lhs] ++ tokGreens triv ++ [Green.token op] ++ [(parseMul fuel rest1).1]))
          (parseMul fuel rest1).2.1
        simp only [parseAddLoop, hr]
        simp_all [List.append_assoc]
      · simp_all [parseAddLoop, hr, h1]

theorem parseAdd_toks (fuel : Nat) (ts : List Token) :
    (parseAdd fuel ts).1.toks ++ (parseAdd fuel ts).2.1 = ts := by
  have ha := parseMul_toks fuel ts
  have hl := parseAddLoop_toks fuel (parseMul fuel ts).1 (parseMul fuel ts).2.1
  simp only [parseAdd]
  simp_all

theorem parseUpdate_toks (fuel : Nat) (ts : List Token) :
    (parseUpdate fuel ts).1.toks ++ (parseUpdate fuel ts).2.1 = ts := by
  induction fuel generalizing ts with
  | zero => simp [parseUpdate]
  | succ fuel ih =>
    have ha := parseAdd_toks fuel ts
    have h := takeTrivia_append (parseAdd fuel ts).2.1
    rcases hr : takeTrivia (parseAdd fuel ts).2.1 with ⟨triv, rest⟩
    rw [hr] at h
    cases rest with
    | nil => simp_all [parseUpdate, hr]
    | cons op rest1 =>
      by_cases h1 : op.kind = .TOKEN_UPDATE
      · have hrhs := ih rest1
        simp only [parseUpdate, hr]
        simp_all [List.append_assoc]
      · simp_all [parseUpdate, hr, h1]

theorem parseExpr_toks (fuel : Nat) (ts : List Token) :
    (parseExpr fuel ts).1.toks ++ (parseExpr fuel ts).2.1 = ts := by
  induction fuel generalizing ts with
  | zero => simp [parseExpr]
  | succ fuel ih =>
    have h := takeTrivia_append ts
    rcases hr : takeTrivia ts with ⟨triv, rest⟩
    rw [hr] at h
    cases rest with
    | nil => simp_all [parseExpr, hr, parseUpdate_toks]
    | cons id rest1 =>
      by_cases h1 : id.kind = .TOKEN_IDENT
      · have h2 := takeTrivia_append rest1
        rcases hr2 : takeTrivia rest1 with ⟨triv2, rest2⟩
        rw [hr2] at h2
        cases rest2 with
        | nil => simp_all [parseExpr, hr, h1, hr2, parseUpdate_toks]
        | cons colon rest3 =>
          by_cases h3 : colon.kind = .TOKEN_COLON
          · have hb := ih rest3
            simp only [parseExpr, hr, hr2]
            simp_all [List.append_assoc]
          · simp_all [parseExpr, hr, h1, hr2, h3, parseUpdate_toks]
      · simp_all [parseExpr, hr, h1, parseUpdate_toks]

theorem parseRoot_toks (ts : List Token) : (parseRoot ts).1.toks = ts := by
  have h := parseExpr_toks (2 * ts.length + 2) ts
  simp only [parseRoot]
  simp_all

theorem parse_green_kind (s : String) :
    (Root.parse s).green.kind = SyntaxKind.NODE_ROOT := by
  simp [Root.parse, parseRoot, Green.kind]

/-- C1: for every input string, including malformed input, concatenating the
text of every token of the tree produced by `Root.parse`, in the order
visited by a left-to-right traversal, reproduces the original input string
exactly. -/
theorem parse_round_trip (s : String) :
    Green.text (Root.parse s).green = s.data := by
  simp only [Root.parse, Green.text]
  rw [parseRoot_toks]
  exact tokenize_text s.data

/-- C2: `Root.parse` is total: for every finite input string it returns a
`Parse` bundling a complete tree (rooted at the root kind) and an error
list; in the embedding there is no failing path (no `Option`, no panic
model) anywhere in the tokenizer or parser, so no input makes parsing fail
outright. -/
theorem parse_total (s : String) :
    ∃ g errs, Root.parse s = ⟨g, errs⟩ ∧ g.kind = SyntaxKind.NODE_ROOT :=
  ⟨(Root.parse s).green, (Root.parse s).errors, rfl, parse_green_kind s⟩

/-- C5: for every input string, `Parse.tree` on the result of `Root.parse`
never panics: the root of the produced tree always satisfies `Root`'s cast
predicate, so the unwrap (modelled as `Option`) always yields a value. -/
theorem parse_tree_no_panic (s : String) :
    ∃ r, (Root.parse s).tree = some r := by
  have h := parse_green_kind s
  exact ⟨⟨(Root.parse s).green⟩, by simp [Parse.tree, Root.cast, Parse.syntaxNode, h]⟩

/-- C9: `Root.parse` is deterministic: two invocations on equal input
strings produce equal results (the embedding is a pure function of the
input string alone, with no state threaded anywhere). -/
theorem parse_deterministic (s t : String) (h : s = t) :
    Root.parse s = Root.parse t := by
  rw [h]

theorem parse_deterministic_witness :
    ("a: b" : String) = "a: b" ∧ Root.parse "a: b" = Root.parse "a: b" :=
  ⟨rfl, parse_deterministic "a: b" "a: b" rfl⟩

/-- C3: `NixLanguage.kind_from_raw` is a checked conversion: every raw tag
above the `__LAST` bound aborts (modelled as `none`) rather than silently
coercing, and every in-bound tag yields the kind with exactly that
discriminant. -/
theorem kind_from_raw_checked (raw : Nat) :
    (SyntaxKind.toRaw .__LAST < raw → NixLanguage.kind_from_raw raw = none)
    ∧ (raw ≤ SyntaxKind.toRaw .__LAST →
        ∃ k, NixLanguage.kind_from_raw raw = some k ∧ SyntaxKind.toRaw k = raw) := by
  constructor
  · intro h
    simp [NixLanguage.kind_from_raw, Nat.not_le.mpr h]
  · intro h
    have h21 : raw ≤ 21 := by simpa [SyntaxKind.toRaw] using h
    interval_cases raw <;> decide

theorem kind_from_raw_checked_witness :
    NixLanguage.kind_from_raw 100 = none
    ∧ ∃ k, NixLanguage.kind_from_raw 3 = some k ∧ SyntaxKind.toRaw k = 3 :=
  ⟨(kind_from_raw_checked 100).1 (by decide), (kind_from_raw_checked 3).2 (by decide)⟩

/-- C10: the raw conversions round-trip: `kind_from_raw (kind_to_raw k)`
recovers `k` for every kind, and the bounds assertion cannot fire on such a
round trip because every discriminant is at most that of `__LAST`. -/
theorem kind_raw_round_trip (k : SyntaxKind) :
    NixLanguage.kind_from_raw (NixLanguage.kind_to_raw k) = some k
    ∧ NixLanguage.kind_to_raw k ≤ SyntaxKind.toRaw .__LAST := by
  cases k <;> exact ⟨rfl, by decide⟩

/-- C4: for every `Parse` value `p`, `p.ok` yields `Ok (p.tree)` exactly
when the error list is empty, and otherwise yields `Err e` with `e` the
first error of the ordered list. -/
theorem ok_first_error (p : Parse) :
    (p.errors = [] → p.ok = .ok p.tree)
    ∧ ∀ e es, p.errors = e :: es → p.ok = .error e := by
  constructor
  · intro h
    simp [Parse.ok, h]
  · intro e es h
    simp [Parse.ok, h]

theorem ok_first_error_witness :
    ((Root.parse "1").errors = [] ∧ (Root.parse "1").ok = .ok (Root.parse "1").tree)
    ∧ ((Root.parse "").errors = [⟨"unexpected end of input"⟩]
        ∧ (Root.parse "").ok = .error ⟨"unexpected end of input"⟩) :=
  ⟨⟨rfl, (ok_first_error (Root.parse "1")).1 rfl⟩,
   ⟨rfl, (ok_first_error (Root.parse "")).2 ⟨"unexpected end of input"⟩ [] rfl⟩⟩

/-- C6: the `match_ast!` dispatch helper evaluates exactly the handler of
the first listed wrapper whose cast of the node succeeds (the
`findSome?` characterization), and it evaluates the catch-all if and only
if every listed wrapper's cast yields no wrapper. -/
theorem matchAst_dispatch (R : Type) (node : Green) (arms : List (MatchArm R))
    (catchAll : R) :
    matchAst node arms catchAll
      = (arms.findSome? fun a => (a.cast node).map a.handler).getD catchAll
    ∧ ((arms.findSome? fun a => (a.cast node).map a.handler) = none
        ↔ ∀ a ∈ arms, a.cast node = none) := by
  induction arms with
  | nil => simp [matchAst]
  | cons arm rest ih =>
    cases h : arm.cast node with
    | none => simpa [matchAst, List.findSome?_cons, h] using ih
    | some it => simp [matchAst, List.findSome?_cons, h]

theorem matchAst_dispatch_witness :
    matchAst (Green.node .NODE_ROOT []) ([] : List (MatchArm Nat)) 0
      = (List.findSome?
          (fun (a : MatchArm Nat) =>
            (a.cast (Green.node .NODE_ROOT [])).map a.handler) []).getD 0
    ∧ ((List.findSome?
          (fun (a : MatchArm Nat) =>
            (a.cast (Green.node .NODE_ROOT [])).map a.handler) []) = none
        ↔ ∀ a ∈ ([] : List (MatchArm Nat)), a.cast (Green.node .NODE_ROOT []) = none) :=
  matchAst_dispatch Nat (Green.node .NODE_ROOT []) [] 0

/-- C7: operator precedence and associativity: `1 - 2 - 3` associates as
`(1 - 2) - 3`, `1 + 2 * 3` parses as `1 + (2 * 3)`, nested lambdas
`a: b: c` associate as `a: (b: c)`, and set-update `a // b // c`
associates as `a // (b // c)` (stated on the trivia-erased shape of the
parsed tree). -/
theorem precedence_and_assoc :
    (Root.parse "1 - 2 - 3").green.shape
      = some (.node .NODE_ROOT
          [.node .NODE_BIN_OP
            [.node .NODE_BIN_OP
              [.node .NODE_LITERAL [.tok .TOKEN_INTEGER ['1']],
               .tok .TOKEN_SUB ['-'],
               .node .NODE_LITERAL [.tok .TOKEN_INTEGER ['2']]],
             .tok .TOKEN_SUB ['-'],
             .node .NODE_LITERAL [.tok .TOKEN_INTEGER ['3']]]])
    ∧ (Root.parse "1 + 2 * 3").green.shape
      = some (.node .NODE_ROOT
          [.node .NODE_BIN_OP
            [.node .NODE_LITERAL [.tok .TOKEN_INTEGER ['1']],
             .tok .TOKEN_ADD ['+'],
             .node .NODE_BIN_OP
              [.node .NODE_LITERAL [.tok .TOKEN_INTEGER ['2']],
               .tok .TOKEN_MUL ['*'],
               .node .NODE_LITERAL [.tok .TOKEN_INTEGER ['3']]]]])
    ∧ (Root.parse "a: b: c").green.shape
      = some (.node .NODE_ROOT
          [.node .NODE_LAMBDA
            [.tok .TOKEN_IDENT ['a'],
             .tok .TOKEN_COLON [':'],
             .node .NODE_LAMBDA
              [.tok .TOKEN_IDENT ['b'],
               .tok .TOKEN_COLON [':'],
               .node .NODE_IDENT [.tok .TOKEN_IDENT ['c']]]]])
    ∧ (Root.parse "a // b // c").green.shape
      = some (.node .NODE_ROOT
          [.node .NODE_BIN_OP
            [.node .NODE_IDENT [.tok .TOKEN_IDENT ['a']],
             .tok .TOKEN_UPDATE ['/', '/'],
             .node .NODE_BIN_OP
              [.node .NODE_IDENT [.tok .TOKEN_IDENT ['b']],
               .tok .TOKEN_UPDATE ['/', '/'],
               .node .NODE_IDENT [.tok .TOKEN_IDENT ['c']]]]]) :=
  ⟨rfl, rfl, rfl, rfl⟩

/-- C8: in the parse of `a.b.c or d`, the `or d` default clause wraps the
entire selection chain `a.b.c` (the `NODE_OR_DEFAULT` node's first child is
the full nested selection), not the final segment `c` alone. -/
theorem or_default_whole_chain :
    (Root.parse "a.b.c or d").green.shape
      = some (.node .NODE_ROOT
          [.node .NODE_OR_DEFAULT
            [.node .NODE_SELECT
              [.node .NODE_SELECT
                [.node .NODE_IDENT [.tok .TOKEN_IDENT ['a']],
                 .tok .TOKEN_DOT ['.'],
                 .tok .TOKEN_IDENT ['b']],
               .tok .TOKEN_DOT ['.'],
               .tok .TOKEN_IDENT ['c']],
             .tok .TOKEN_OR ['o', 'r'],
             .node .NODE_IDENT [.tok .TOKEN_IDENT ['d']]]]) :=
  rfl
